import Mathlib

/-!
Verification of the USGS commodity-production scraper
(src/scraper/example_scraper.py) against its specification.

The Python source is shallowly embedded below.  Pure string manipulation is
modelled on `List Char` / `String`; the regular expressions of the source are
translated into executable scanning functions; `pd.to_numeric(errors="coerce")`
is modelled as an `Option ℚ` parser (a coerced `NaN` is identified with a
failed parse, since every claim-relevant use is immediately followed by
`dropna`, which treats the two identically); exceptions are modelled with
`Except`/`Option`.
-/

namespace Scraper

/-! ### Basic string helpers (Python `str.strip`, `str.lower`, `in`) -/

/-- Python `str.strip()` on a character list: remove leading and trailing
whitespace. -/
def trimChars (cs : List Char) : List Char :=
  ((cs.dropWhile Char.isWhitespace).reverse.dropWhile Char.isWhitespace).reverse

/-- Python `str.strip()` on a `String`. -/
def strTrim (s : String) : String := ⟨trimChars s.toList⟩

/-- Python `str.lower()` (the source only ever lower-cases ASCII text that has
already been accent-folded by `unidecode`). -/
def strLower (s : String) : String := ⟨s.toList.map Char.toLower⟩

/-- Python substring test: `needle in hay`. -/
def containsSub (needle hay : String) : Bool :=
  decide (needle.toList <:+: hay.toList)

/-! ### The regular-expression rewrites of `normalize_country`

`re.sub(r"\([^)]*\)", "", s)` removes every parenthesized group: at a `(`
that is followed by some `)`, everything up to and including the first such
`)` is removed and scanning resumes after it; a `(` with no later `)` never
matches and is kept. -/

/-- One-pass scanner for `re.sub(r"\([^)]*\)", "", s)`.  The first argument
says whether we are inside a candidate group, the second accumulates the
characters seen since the opening `(` (emitted verbatim if the group turns
out to be unterminated, exactly as the unmatched regex leaves them). -/
def stripParensGo : Bool → List Char → List Char → List Char
  | false, _, [] => []
  | false, buf, c :: rest =>
    if c = '(' then stripParensGo true [] rest
    else c :: stripParensGo false buf rest
  | true, buf, [] => '(' :: buf
  | true, buf, c :: rest =>
    if c = ')' then stripParensGo false [] rest
    else stripParensGo true (buf ++ [c]) rest

/-- `re.sub(r"\([^)]*\)", "", s)` (source line 62). -/
def stripParens (cs : List Char) : List Char := stripParensGo false [] cs

/-- Word character for the regex word boundary: letters, digits, underscore. -/
def isWordChar (c : Char) : Bool := c.isAlphanum || c = '_'

/-- Fuel-indexed scanner for `re.sub(r",\s*\d+\b", "", s)` (source line 63):
a comma followed by optional whitespace and a maximal nonempty digit run is
removed when the digit run ends at a word boundary (end of string or a
non-word character); otherwise the comma is kept and scanning moves on.
The fuel argument only establishes termination; it never runs out when
initialised to `length + 1` because each step consumes at least one
character. -/
def stripCommaNumGo : Nat → List Char → List Char
  | 0, l => l
  | _ + 1, [] => []
  | fuel + 1, c :: rest =>
    if c = ',' then
      let afterWs := rest.dropWhile Char.isWhitespace
      let ds := afterWs.takeWhile Char.isDigit
      let afterDs := afterWs.dropWhile Char.isDigit
      if ds ≠ [] ∧ isWordChar (afterDs.headD ' ') = false then
        stripCommaNumGo fuel afterDs
      else
        c :: stripCommaNumGo fuel rest
    else
      c :: stripCommaNumGo fuel rest

/-- `re.sub(r",\s*\d+\b", "", s)`. -/
def stripCommaNum (cs : List Char) : List Char :=
  stripCommaNumGo (cs.length + 1) cs

/-! ### `unidecode` -/

/-- Accent folding of a single character, modelling the `unidecode` library
call on the character sets that occur in the scraped labels (identity on
ASCII, the common Latin-1 accented letters mapped to their base letter). -/
def unidecodeChar (c : Char) : Char :=
  if c = 'à' ∨ c = 'á' ∨ c = 'â' ∨ c = 'ã' ∨ c = 'ä' ∨ c = 'å' then 'a'
  else if c = 'ç' then 'c'
  else if c = 'é' ∨ c = 'è' ∨ c = 'ê' ∨ c = 'ë' then 'e'
  else if c = 'í' ∨ c = 'ì' ∨ c = 'î' ∨ c = 'ï' then 'i'
  else if c = 'ó' ∨ c = 'ò' ∨ c = 'ô' ∨ c = 'õ' ∨ c = 'ö' then 'o'
  else if c = 'ú' ∨ c = 'ù' ∨ c = 'û' ∨ c = 'ü' then 'u'
  else if c = 'ñ' then 'n'
  else c

/-- `unidecode(s)` (source lines 8, 65, 78). -/
def unidec (s : String) : String := ⟨s.toList.map unidecodeChar⟩

/-! ### The static tables of the source (lines 28-56) -/

/-- `ALIASES` (source lines 33-51), verbatim. -/
def ALIASES : List (String × String) :=
  [("Congo (Kinshasa)", "Democratic Republic of the Congo"),
   ("Congo, Dem. Rep.", "Democratic Republic of the Congo"),
   ("Congo", "Republic of the Congo"),
   ("Ivory Coast", "C\xf4te d\x27Ivoire"),
   ("Viet Nam", "Vietnam"),
   ("Russian Federation", "Russia"),
   ("Iran", "Iran, Islamic Republic of"),
   ("Syria", "Syrian Arab Republic"),
   ("Tanzania", "Tanzania, United Republic of"),
   ("Laos", "Lao People\x27s Democratic Republic"),
   ("Bolivia", "Bolivia, Plurinational State of"),
   ("Venezuela", "Venezuela, Bolivarian Republic of"),
   ("Korea, North", "Korea, Democratic People\x27s Republic of"),
   ("Korea, South", "Korea, Republic of"),
   ("UK", "United Kingdom"),
   ("U.S.", "United States"),
   ("USA", "United States")]

/-- `BAD_WORDS` (source lines 53-56), verbatim. -/
def BAD_WORDS : List String :=
  ["total", "grand", "ore", "concentrate", "llc", "inc", "company",
   "metals", "smelter", "refinery", "plant", "mine", "estimate", "unwrought"]

/-- Modelled from the spec: the `CanonicalCountrySet` (`ISO_NAMES`, source
lines 28-31) is built at process start from the external `pycountry`
dataset (name, official name and common name of every ISO 3166 country,
accent-folded and lower-cased).  That dataset is not part of this
repository; the entries listed here are the accent-folded, lower-cased
ISO names exercised by the claims and by the concrete grids used below,
taken from the ISO 3166 reference data. -/
def ISO_NAMES : List String :=
  ["france", "french republic",
   "congo", "republic of the congo",
   "congo, the democratic republic of the",
   "singapore", "republic of singapore",
   "united states", "united states of america",
   "united kingdom",
   "united kingdom of great britain and northern ireland",
   "germany", "federal republic of germany",
   "japan", "canada", "australia", "china", "india", "brazil"]

/-- `ALIASES.get(s, s)` (source line 75). -/
def aliasApply (s : String) : String :=
  ((ALIASES.find? (fun p => p.1 = s)).map Prod.snd).getD s

/-! ### `normalize_country` (source lines 58-80) -/

/-- The cleaned label `s` of `normalize_country`: parenthesized groups
removed, trailing comma-digit annotations removed, stripped, accent-folded
(source lines 62-65). -/
def cleanedCore (raw : String) : String :=
  unidec (strTrim ⟨stripCommaNum (stripParens raw.toList)⟩)

/-- The variable `low` of `normalize_country`: the cleaned label,
lower-cased (source line 66). -/
def cleanedLower (raw : String) : String := strLower (cleanedCore raw)

/-- `normalize_country` (source lines 58-80): clean a raw label and return
its canonical form, or `none` when the label is not recognised as a
country. -/
def normalize_country (raw : String) : Option String :=
  if strTrim raw = "" then none
  else
    let s := cleanedCore raw
    let low := cleanedLower raw
    if BAD_WORDS.any (fun w => containsSub w low) then none
    else if containsSub "," s ∧ ¬ (s = "Korea, North" ∨ s = "Korea, South") then
      none
    else
      let s2 := aliasApply s
      if strLower (unidec s2) ∈ ISO_NAMES then some s2 else none

/-! ### Year detection (source lines 86-89) -/

/-- The regex `^(19|20)\d{2}$` fully matches a character list. -/
def yearPattern : List Char → Bool
  | [a, b, c, d] =>
    (((a = '1' ∧ b = '9') ∨ (a = '2' ∧ b = '0')) ∧ c.isDigit ∧ d.isDigit : Prop)
      |> decide
  | _ => false

/-- `_is_year` (source lines 87-89): strip, then match `^(19|20)\d{2}$`. -/
def _is_year (x : String) : Bool := yearPattern (trimChars x.toList)

/-! ### Numeric coercion

`pd.to_numeric(errors="coerce")` on the string cells of this pipeline:
optional surrounding whitespace, an optional sign, and a decimal numeral
with an optional fractional part.  Anything else (for example `"NA"` or
`"--"`) coerces to `NaN`; since every use in the source is immediately
followed by `dropna`, a coerced `NaN` is identified with a failed parse. -/

/-- Value of a digit run. -/
def digitsVal (ds : List Char) : Nat :=
  ds.foldl (fun a c => 10 * a + (c.toNat - 48)) 0

/-- Parse an unsigned decimal numeral (digits with an optional fractional
part). -/
def parseUnsigned (cs : List Char) : Option ℚ :=
  let ds := cs.takeWhile Char.isDigit
  let rest := cs.dropWhile Char.isDigit
  match rest with
  | [] => if ds = [] then none else some (digitsVal ds)
  | '.' :: frac =>
    let fs := frac.takeWhile Char.isDigit
    let rest2 := frac.dropWhile Char.isDigit
    if rest2 = [] ∧ (ds ≠ [] ∨ fs ≠ []) then
      some ((digitsVal ds : ℚ) + (digitsVal fs : ℚ) / (10 : ℚ) ^ fs.length)
    else none
  | _ => none

/-- Parse a signed decimal numeral after trimming whitespace. -/
def parseNum (s : String) : Option ℚ :=
  if (trimChars s.toList).headD ' ' = '-' then
    (parseUnsigned (trimChars s.toList).tail).map Neg.neg
  else if (trimChars s.toList).headD ' ' = '+' then
    parseUnsigned (trimChars s.toList).tail
  else parseUnsigned (trimChars s.toList)

/-- `.str.replace(",", "")` (source line 144): remove every comma. -/
def removeCommas (s : String) : String := ⟨s.toList.filter (· ≠ ',')⟩

/-- `int(x)` / `astype(int)` on an already numeric value: truncation toward
zero (source line 207). -/
def ratToInt (q : ℚ) : Int := q.num.tdiv q.den

/-! ### The table locator (source lines 101-115)

A worksheet is modelled as the 2-D grid of its cell strings (the source
reads every sheet with `header=None, dtype=str`); a missing/NaN cell is
modelled as a missing list entry, whose default `""` neither matches a
keyword nor a year nor parses as a number, exactly like the string `"nan"`
produced by `astype(str)`. -/

abbrev Grid := List (List String)

/-- `country_keywords` (source line 101), verbatim. -/
def countryKeywords : List String :=
  ["country", "country or area", "country/area", "area", "location"]

/-- Does a stripped, lower-cased cell contain some country keyword
(source line 111)? -/
def cellHasKeyword (x : String) : Bool :=
  countryKeywords.any (fun k => containsSub k x)

/-- The header-row test of the scan loop (source lines 110-113): the row,
stripped and lower-cased cell-wise, has a cell containing a country keyword
and at least two cells matching the year pattern. -/
def headerRowPred (row : List String) : Bool :=
  let cells := row.map (fun c => strLower (strTrim c))
  cells.any cellHasKeyword && decide (2 ≤ cells.countP _is_year)

/-- The scan loop `for i in range(min(len(df), 200))` (source lines
109-115): return the first row index `< 200` whose row satisfies
`headerRowPred`, or `none`. -/
def locateHeaderAux : Nat → Grid → Option Nat
  | _, [] => none
  | i, r :: rs =>
    if i < 200 then
      if headerRowPred r then some i else locateHeaderAux (i + 1) rs
    else none

/-- The table locator: first qualifying row among the first 200 rows. -/
def locateHeader (g : Grid) : Option Nat := locateHeaderAux 0 g

/-! ### The sheet reshaper (source lines 120-146) -/

/-- A long-format record (columns of the melted table, source lines
137-146): `Country | Year | Production | Commodity`.  `country` holds the
raw cell before normalization; `year` is integral because year columns are
labelled by strings matching the year pattern (the source materialises the
integer with `astype(int)` on the final table). -/
structure ProductionRecord where
  country : String
  year : Int
  production : ℚ
  commodity : String
deriving DecidableEq

/-- The stripped header labels `header` (source line 120). -/
def headerLabels (g : Grid) (i : Nat) : List String :=
  (g.getD i []).map strTrim

/-- The country column: first column whose stripped, lower-cased label
contains a country keyword (source lines 124-129). -/
def findCountryCol (labels : List String) : Option Nat :=
  labels.findIdx? (fun c => cellHasKeyword (strLower (strTrim c)))

/-- The year columns: every column whose label matches `_is_year`, in
left-to-right order (source line 133). -/
def yearColIdxs (labels : List String) : List Nat :=
  (List.range labels.length).filter (fun j => _is_year (labels.getD j ""))

/-- The reshaping step (source lines 120-146): select the country column
and the year columns under the located header, drop rows with a blank
country cell, melt wide year columns into long rows (year-column-major, as
`DataFrame.melt` does), numerically coerce year and production (stripping
thousands separators from production), and drop every melted cell whose
year or production fails to parse. -/
def reshapeSheet (g : Grid) (i : Nat) (commodity : String) :
    List ProductionRecord :=
  match findCountryCol (headerLabels g i) with
  | none => []
  | some cc =>
    if (yearColIdxs (headerLabels g i)).length < 2 then []
    else
      (yearColIdxs (headerLabels g i)).flatMap (fun j =>
        ((g.drop (i + 1)).filter
            (fun r => strTrim (r.getD cc "") ≠ "")).filterMap (fun r =>
          match parseNum ((headerLabels g i).getD j "") with
          | none => none
          | some y =>
            match parseNum (removeCommas (r.getD j "")) with
            | none => none
            | some p => some ⟨r.getD cc "", ratToInt y, p, commodity⟩))

/-- The country-cleaning step (source lines 149-151): replace each record's
country by its normalized form, dropping records whose country is
rejected. -/
def cleanRecords (rs : List ProductionRecord) : List ProductionRecord :=
  rs.filterMap (fun r =>
    (normalize_country r.country).map (fun c => { r with country := c }))

/-- Process one sheet: locate the header, reshape, clean.  Every rejection
path of the source (`header_idx is None`, no country column, fewer than two
year columns, nothing surviving the cleaning) yields `[]`, upon which the
caller moves to the next sheet. -/
def processSheet (g : Grid) (commodity : String) : List ProductionRecord :=
  match locateHeader g with
  | none => []
  | some i => cleanRecords (reshapeSheet g i commodity)

/-- The per-sheet loop of `tidy_excel` (source lines 103-160): try sheets
in workbook order, return the first nonempty cleaned table, `none` when
every sheet fails. -/
def tidySheets : List Grid → String → Option (List ProductionRecord)
  | [], _ => none
  | g :: rest, commodity =>
    let recs := processSheet g commodity
    if recs.isEmpty then tidySheets rest commodity else some recs

/-- `tidy_excel` (source lines 95-164).  The workbook argument models the
outcome of reading the input bytes with `pd.ExcelFile`/`pd.read_excel`
(external collaborators): either the list of sheet grids, or the exception
those readers raise on malformed bytes.  The `try/except` of the source
converts any such exception to `None`. -/
def tidy_excel (wb : Except String (List Grid)) (commodity : String) :
    Option (List ProductionRecord) :=
  match wb with
  | .error _ => none
  | .ok sheets => tidySheets sheets commodity

/-! ### The orchestrator `run` (source lines 181-209)

`requests.get` is an external collaborator; its outcome for one source is
either a raised library exception (timeout, connection error, ...) or a
response carrying a status code and, for parsing, the workbook bytes
(already modelled as the outcome of the spreadsheet readers). -/

/-- Outcome of the `requests.get` call for one source. -/
inductive FetchOutcome where
  | raises (msg : String)
  | responds (status : Nat) (wb : Except String (List Scraper.Grid))

/-- One entry of the `COMMODITIES` table together with its fetch outcome. -/
structure Source where
  commodity : String
  outcome : FetchOutcome

/-- The tables a source appends to `all_data` (source lines 191-198): its
parsed table when the status is 200 and `tidy_excel` yields a nonempty
table, nothing otherwise. -/
def sourceTables (s : Source) : List (List ProductionRecord) :=
  match s.outcome with
  | .raises _ => []
  | .responds st wb =>
    if st = 200 then
      match tidy_excel wb s.commodity with
      | some recs => if recs.isEmpty then [] else [recs]
      | none => []
    else []

/-- The records contributed by one source. -/
def sourceRecs (s : Source) : List ProductionRecord :=
  (sourceTables s).flatten

/-- The fetch loop of `run` (source lines 183-198), accumulating
`all_data`.  `requests.get` is called with no surrounding `try/except`, so
a raised library exception propagates out of the loop and aborts the run:
this is modelled by `Except.error`. -/
def collectData : List Source → Except String (List (List ProductionRecord))
  | [] => .ok []
  | s :: rest =>
    match s.outcome with
    | .raises m => .error m
    | .responds _ _ =>
      match collectData rest with
      | .error m => .error m
      | .ok tail => .ok (sourceTables s ++ tail)

/-- Code-point lexicographic comparison of strings as character lists (the
string order used by the pandas sort). -/
def charListLE : List Char → List Char → Bool
  | [], _ => true
  | _ :: _, [] => false
  | a :: as, b :: bs =>
    if a < b then true else if b < a then false else charListLE as bs

/-- The sort key order of `df_all.sort_values(["Commodity", "Year",
"Country"])` (source line 208), as a Boolean comparison: lexicographic on
commodity, then year, then country. -/
def recLEb (a b : ProductionRecord) : Bool :=
  if a.commodity = b.commodity then
    if a.year = b.year then charListLE a.country.toList b.country.toList
    else decide (a.year < b.year)
  else charListLE a.commodity.toList b.commodity.toList

/-- The sort key order as a relation. -/
def recLE (a b : ProductionRecord) : Prop := recLEb a b = true

instance : DecidableRel recLE := fun a b => (recLEb a b).decEq true

/-- The sort key of a record. -/
def recKey (r : ProductionRecord) : String × Int × String :=
  (r.commodity, r.year, r.country)

/-- `df_all.sort_values(["Commodity", "Year", "Country"])`: a stable sort
by `recLE` (sorting a DataFrame by a column list uses a stable lexsort);
modelled by the stable `List.insertionSort`. -/
def sortRecords (l : List ProductionRecord) : List ProductionRecord :=
  l.insertionSort recLE

/-- Result of a run (source lines 200-209): either the single diagnostic
probe file, or the sorted output table handed to `save_csv`. -/
inductive RunResult where
  | probe
  | data (table : List ProductionRecord)

/-- `run` (source lines 181-209): fetch and parse every source in order;
when nothing was collected write the probe, otherwise concatenate, cast
years to `int` and sort.  A library exception escaping `requests.get`
aborts the whole run (`Except.error`). -/
def run (sources : List Source) : Except String RunResult :=
  match collectData sources with
  | .error m => .error m
  | .ok all =>
    if all.isEmpty then .ok .probe
    else .ok (.data (sortRecords all.flatten))

/-- The output table of a successful data-producing run, `none`
otherwise. -/
def runTable (sources : List Source) : Option (List ProductionRecord) :=
  match run sources with
  | .ok (.data t) => some t
  | _ => none

/-- The uncaught exception aborting a run, `none` when the run finished. -/
def runErr (sources : List Source) : Option String :=
  match run sources with
  | .error m => some m
  | .ok _ => none

/-- Content of the probe file (source line 202). -/
def probeContent : String := "note,no data parsed on runner\n"

/-- CSV text of the output table, header row plus one line per record in
the column order `Country, Year, Production, Commodity` (source lines
137-140, 170-174; the numeric formatting of the external CSV writer is
immaterial to the claims). -/
def csvOf (t : List ProductionRecord) : String :=
  "Country,Year,Production,Commodity\n" ++
    String.join (t.map (fun r =>
      r.country ++ "," ++ toString r.year ++ "," ++ toString r.production
        ++ "," ++ r.commodity ++ "\n"))

/-- The files a run writes, as (name, content) pairs (source lines 170-175,
200-209): on total failure exactly the dated probe file, otherwise the
latest and dated data CSVs written by `save_csv`. -/
def runFiles (sources : List Source) (stamp : String) :
    Except String (List (String × String)) :=
  match run sources with
  | .error m => .error m
  | .ok .probe =>
    .ok [("usgs_probe_" ++ stamp ++ ".csv", probeContent)]
  | .ok (.data t) =>
    .ok [("usgs_world_production_long_latest.csv", csvOf t),
         ("usgs_world_production_long_" ++ stamp ++ ".csv", csvOf t)]

/-- Does the fetch of a source raise a library exception? -/
def sourceRaises (s : Source) : Bool :=
  match s.outcome with
  | .raises _ => true
  | .responds _ _ => false

/-- Membership test for the sort-key class of `k`. -/
def keyP (k : String × Int × String) (r : ProductionRecord) : Bool :=
  decide (recKey r = k)

/-! ### Concrete fixtures used to instantiate the claims -/

/-- The grid of the spec example for the reshaper: one located header, one
data row with a thousands separator and an unparsable cell. -/
def demoGrid : Grid := [["Country", "1990", "1991"], ["France", "1,234", "NA"]]

/-- A well-formed sheet producing two records. -/
def goodGrid : Grid := [["Country", "1990", "1991"], ["France", "1,234", "5"]]

/-- A sheet with a negative production cell. -/
def negGrid : Grid := [["Country", "1990", "1991"], ["France", "-5", "7"]]

/-- A sheet with no header row. -/
def badGrid : Grid := [["just", "a", "title"]]

/-- A sheet whose second row is a header and whose third row is a later
candidate header with more year columns. -/
def twoHeaderGrid : Grid :=
  [["title"], ["Country", "1990", "1991"], ["Area", "1990", "1991", "1992"]]

end Scraper

namespace Scraper

/-! ## Helper lemmas -/

/-- A table returned by the sheet loop is the processed table of one of the
sheets, and is nonempty. -/
theorem tidySheets_eq_some {sheets : List Grid} {c : String}
    {recs : List ProductionRecord} (h : tidySheets sheets c = some recs) :
    ∃ g ∈ sheets, recs = processSheet g c ∧ recs ≠ [] := by
  induction sheets with
  | nil => simp [tidySheets] at h
  | cons g rest ih =>
    rw [tidySheets] at h
    by_cases he : (processSheet g c).isEmpty
    · rw [if_pos he] at h
      obtain ⟨g', hg', hrecs⟩ := ih h
      exact ⟨g', List.mem_cons_of_mem _ hg', hrecs⟩
    · rw [if_neg he] at h
      refine ⟨g, List.mem_cons_self _ _, (Option.some_inj.mp h).symm, ?_⟩
      intro hnil
      exact he (by rw [Option.some_inj.mp h, hnil]; rfl)

/-! ## Claim C2 -/

/-- C2: the spec claims `normalize("Congo (Kinshasa)")` returns
`"Democratic Republic of the Congo"`.  The code strips the parenthesized
part first, so the alias lookup sees `"Congo"` and the dead
`ALIASES` entry for `"Congo (Kinshasa)"` never fires: the code actually
returns `"Republic of the Congo"`. -/
theorem c2_congo_kinshasa_eval :
    normalize_country "Congo (Kinshasa)" = some "Republic of the Congo" ∧
      normalize_country "Congo (Kinshasa)"
        ≠ some "Democratic Republic of the Congo" := by
  decide

/-! ## Claim C3 -/

/-- C3: on the located header (row 0) with country column `Country` and
year columns 1990, 1991, the single data row
`("France", "1,234", "NA")` reshapes to exactly one record
`{country := "France", year := 1990, production := 1234}`: the thousands
separator is stripped before parsing and the unparsable `"NA"` cell is
dropped rather than defaulted to zero. -/
theorem c3_reshape_drops_unparsable :
    locateHeader demoGrid = some 0 ∧
      reshapeSheet demoGrid 0 "X" = [⟨"France", 1990, 1234, "X"⟩] := by
  decide

/-! ## Claim C5 -/

/-- C5: the spec claims a library-level fetch exception is caught at the
orchestrator and converted into a per-source failure.  `run` has no
`try/except` around `requests.get`, so the exception propagates and aborts
the whole run: with a first source whose fetch raises and a second source
that parses fine on its own, the run ends with the uncaught exception and
produces no output at all. -/
theorem c5_fetch_exception_aborts_run :
    runErr [⟨"aluminum", .raises "ReadTimeout"⟩,
            ⟨"nickel", .responds 200 (.ok [goodGrid])⟩] = some "ReadTimeout" ∧
      runTable [⟨"aluminum", .raises "ReadTimeout"⟩,
                ⟨"nickel", .responds 200 (.ok [goodGrid])⟩] = none ∧
      runTable [⟨"nickel", .responds 200 (.ok [goodGrid])⟩]
        = some [⟨"France", 1990, 1234, "nickel"⟩,
                ⟨"France", 1991, 5, "nickel"⟩] := by
  decide

/-! ## Claim C10 -/

/-- C10: `tidy_excel` is total at its boundary: a workbook whose byte
parsing raises yields `none` (the `try/except` converts any internal
exception), and on every input the result is `none` or a nonempty
table. -/
theorem c10_tidy_excel_total :
    (∀ e c, tidy_excel (.error e) c = none) ∧
      ∀ wb c, tidy_excel wb c = none ∨
        ∃ recs, tidy_excel wb c = some recs ∧ recs ≠ [] := by
  refine ⟨fun e c => rfl, fun wb c => ?_⟩
  cases wb with
  | error e => exact Or.inl rfl
  | ok sheets =>
    cases h : tidySheets sheets c with
    | none => exact Or.inl (by simp [tidy_excel, h])
    | some recs =>
      obtain ⟨g, hg, hrecs, hne⟩ := tidySheets_eq_some h
      exact Or.inr ⟨recs, by simp [tidy_excel, h], hne⟩

/-! ## Claim C6 -/

/-- C6: when no source contributed any data (and no fetch exception
escaped, so the collection loop finished), the run still succeeds, and its
only output file is the single-line dated probe CSV; no data CSV is
written or overwritten. -/
theorem c6_total_failure_probe :
    ∀ (sources : List Source) (stamp : String),
      collectData sources = .ok [] →
      run sources = .ok .probe ∧
        runFiles sources stamp
          = .ok [("usgs_probe_" ++ stamp ++ ".csv", probeContent)] := by
  intro sources stamp h
  constructor
  · simp [run, h]
  · simp [runFiles, run, h]

/-- Witness for C6: a source answering 404 and a source whose workbook has
no usable sheet together contribute nothing; the run writes exactly the
probe file. -/
theorem c6_witness :
    run [⟨"aluminum", .responds 404 (.ok [goodGrid])⟩,
         ⟨"nickel", .responds 200 (.ok [badGrid])⟩] = .ok .probe ∧
      runFiles [⟨"aluminum", .responds 404 (.ok [goodGrid])⟩,
                ⟨"nickel", .responds 200 (.ok [badGrid])⟩] "2026-10-12"
        = .ok [("usgs_probe_" ++ "2026-10-12" ++ ".csv", probeContent)] :=
  c6_total_failure_probe _ "2026-10-12" rfl

/-! ## Claim C1 -/

/-- Characterization of the bounded scan loop: started with row counter
`n`, it returns `n + d` exactly when row `d` is the first remaining row
satisfying the header predicate and the counter stays below 200. -/
theorem locateHeaderAux_eq_some_iff (g : Grid) (n i : Nat) :
    locateHeaderAux n g = some i ↔
      ∃ d, i = n + d ∧ d < g.length ∧ i < 200 ∧
        headerRowPred (g.getD d []) = true ∧
        ∀ e < d, headerRowPred (g.getD e []) = false := by
  induction g generalizing n i with
  | nil => simp [locateHeaderAux]
  | cons r rs ih =>
    rw [locateHeaderAux]
    by_cases h200 : n < 200
    · rw [if_pos h200]
      by_cases hp : headerRowPred r = true
      · rw [if_pos hp]
        constructor
        · intro h
          have hin : i = n := (Option.some_inj.mp h).symm
          subst hin
          exact ⟨0, by omega, by simp, h200, by simpa using hp, by omega⟩
        · rintro ⟨d, hid, hd, hi200, hpred, hmin⟩
          cases d with
          | zero => simp [hid]
          | succ e =>
            have h0 : headerRowPred ((r :: rs).getD 0 []) = false :=
              hmin 0 (Nat.succ_pos e)
            simp only [List.getD_cons_zero] at h0
            exact absurd hp (by simp [h0])
      · rw [if_neg hp]
        have hp' : headerRowPred r = false := by
          revert hp; cases headerRowPred r <;> simp
        rw [ih (n + 1) i]
        constructor
        · rintro ⟨d, hid, hd, hi200, hpred, hmin⟩
          refine ⟨d + 1, by omega, by simp only [List.length_cons]; omega,
            hi200, by simpa using hpred, ?_⟩
          intro e he
          cases e with
          | zero => simpa using hp'
          | succ e' => simpa using hmin e' (by omega)
        · rintro ⟨d, hid, hd, hi200, hpred, hmin⟩
          cases d with
          | zero =>
            exfalso
            simp only [List.getD_cons_zero] at hpred
            exact absurd hpred (by simp [hp'])
          | succ d' =>
            refine ⟨d', by omega, by simp only [List.length_cons] at hd; omega,
              hi200, by simpa using hpred, ?_⟩
            intro e he
            simpa using hmin (e + 1) (by omega)
    · rw [if_neg h200]
      constructor
      · intro h; cases h
      · rintro ⟨d, hid, hd, hi200, -, -⟩
        omega

/-- C1: the locator returns exactly the first row, among the first
`min length 200` rows, that has a country-keyword cell and at least two
year-pattern cells (so scanning stops there even if a later row has more
year columns); when no row qualifies the sheet is rejected and the sheet
loop moves on to the next sheet. -/
theorem c1_locator_first_match (g : Grid) :
    (∀ i, locateHeader g = some i →
        i < min g.length 200 ∧ headerRowPred (g.getD i []) = true ∧
          ∀ j < i, headerRowPred (g.getD j []) = false) ∧
      (∀ i, i < min g.length 200 → headerRowPred (g.getD i []) = true →
        (∀ j < i, headerRowPred (g.getD j []) = false) →
        locateHeader g = some i) ∧
      (locateHeader g = none →
        ∀ rest c, tidySheets (g :: rest) c = tidySheets rest c) := by
  refine ⟨?_, ?_, ?_⟩
  · intro i h
    rw [locateHeader, locateHeaderAux_eq_some_iff] at h
    obtain ⟨d, hid, hd, hi200, hpred, hmin⟩ := h
    have hdi : d = i := by omega
    subst hdi
    exact ⟨by omega, hpred, hmin⟩
  · intro i hi hpred hmin
    rw [locateHeader, locateHeaderAux_eq_some_iff]
    exact ⟨i, by omega, by omega, by omega, hpred, hmin⟩
  · intro h rest c
    have hpr : processSheet g c = [] := by rw [processSheet, h]
    simp [tidySheets, hpr]

/-- Witness for C1: on a grid whose row 1 is the first qualifying header
row (row 2 also qualifies, with more year columns), the locator returns
row 1; a sheet with no qualifying row is skipped by the sheet loop. -/
theorem c1_witness :
    locateHeader twoHeaderGrid = some 1 ∧
      tidySheets [badGrid] "aluminum" = tidySheets [] "aluminum" ∧
      (1 < min twoHeaderGrid.length 200 ∧
        headerRowPred (twoHeaderGrid.getD 1 []) = true ∧
        ∀ j < 1, headerRowPred (twoHeaderGrid.getD j []) = false) :=
  ⟨(c1_locator_first_match twoHeaderGrid).2.1 1 (by decide) (by decide)
      (fun j hj => by
        have h0 : j = 0 := by omega
        subst h0; decide),
    (c1_locator_first_match badGrid).2.2 (by decide) [] "aluminum",
    (c1_locator_first_match twoHeaderGrid).1 1
      ((c1_locator_first_match twoHeaderGrid).2.1 1 (by decide) (by decide)
        (fun j hj => by
          have h0 : j = 0 := by omega
          subst h0; decide))⟩

/-! ## Claim C4 -/

/-- Unfolding of the collection loop at a responding source. -/
theorem collectData_cons_responds (c : String) (st : Nat)
    (wb : Except String (List Grid)) (rest : List Source) :
    collectData (⟨c, .responds st wb⟩ :: rest) =
      match collectData rest with
      | .error m => .error m
      | .ok tail => .ok (sourceTables ⟨c, .responds st wb⟩ ++ tail) := rfl

/-- A responding source that contributes no table leaves the run of the
remaining sources unchanged. -/
theorem run_cons_of_no_table {c : String} {st : Nat}
    {wb : Except String (List Grid)} {rest : List Source}
    (h : sourceTables ⟨c, .responds st wb⟩ = []) :
    run (⟨c, .responds st wb⟩ :: rest) = run rest := by
  simp only [run, collectData_cons_responds, h]
  cases collectData rest <;> simp

/-- C4: the sheet loop accepts the first sheet whose cleaned table is
nonempty, ignoring all later sheets; when every sheet yields nothing the
source parses to `None`; and a source whose parse is `None` contributes
nothing, the run continuing with the remaining sources. -/
theorem c4_first_success (commodity : String) :
    (∀ (pre post : List Grid) (g : Grid),
        (∀ s ∈ pre, processSheet s commodity = []) →
        processSheet g commodity ≠ [] →
        tidySheets (pre ++ g :: post) commodity
          = some (processSheet g commodity)) ∧
      (∀ sheets : List Grid,
        (∀ s ∈ sheets, processSheet s commodity = []) →
        tidySheets sheets commodity = none) ∧
      (∀ (st : Nat) (wb : Except String (List Grid)) (rest : List Source),
        tidy_excel wb commodity = none →
        run (⟨commodity, .responds st wb⟩ :: rest) = run rest) := by
  refine ⟨?_, ?_, ?_⟩
  · intro pre post g hpre hg
    induction pre with
    | nil =>
      have hie : (processSheet g commodity).isEmpty = false := by
        revert hg; cases processSheet g commodity <;> simp
      simp [tidySheets, hie]
    | cons p pre' ih =>
      have hp : processSheet p commodity = [] :=
        hpre p (List.mem_cons_self _ _)
      simp only [List.cons_append, tidySheets, hp, List.isEmpty_nil, if_true]
      exact ih (fun s hs => hpre s (List.mem_cons_of_mem _ hs))
  · intro sheets hall
    induction sheets with
    | nil => rfl
    | cons p rest ih =>
      have hp : processSheet p commodity = [] :=
        hall p (List.mem_cons_self _ _)
      simp only [tidySheets, hp, List.isEmpty_nil, if_true]
      exact ih (fun s hs => hall s (List.mem_cons_of_mem _ hs))
  · intro st wb rest htidy
    exact run_cons_of_no_table (by simp [sourceTables, htidy])

/-- Witness for C4: with a headerless first sheet, the loop accepts the
second sheet and never looks at the third; a workbook of only headerless
sheets parses to `None`; a source parsing to `None` drops out of the
run. -/
theorem c4_witness :
    tidySheets [badGrid, goodGrid, negGrid] "aluminum"
        = some (processSheet goodGrid "aluminum") ∧
      tidySheets [badGrid] "aluminum" = none ∧
      run [⟨"aluminum", .responds 200 (.ok [badGrid])⟩,
           ⟨"nickel", .responds 200 (.ok [goodGrid])⟩]
        = run [⟨"nickel", .responds 200 (.ok [goodGrid])⟩] :=
  ⟨(c4_first_success "aluminum").1 [badGrid] [negGrid] goodGrid
      (fun s hs => by rcases List.mem_singleton.mp hs with rfl; decide)
      (by decide),
    (c4_first_success "aluminum").2.1 [badGrid]
      (fun s hs => by rcases List.mem_singleton.mp hs with rfl; decide),
    (c4_first_success "aluminum").2.2 200 (.ok [badGrid]) _ (by decide)⟩

/-! ## Claim C9 -/

/-- Any label whose cleaned, accent-folded, lower-cased form contains a bad
word as a substring is rejected by the normalizer. -/
theorem badword_rejects {raw w : String} (hw : w ∈ BAD_WORDS)
    (hinf : w.toList <:+: (cleanedLower raw).toList) :
    normalize_country raw = none := by
  have hany : BAD_WORDS.any (fun w => containsSub w (cleanedLower raw)) = true :=
    List.any_eq_true.mpr ⟨w, hw, by simpa [containsSub] using hinf⟩
  by_cases h0 : strTrim raw = ""
  · simp [normalize_country, h0]
  · simp [normalize_country, h0, hany]

/-- C9: the bad-word rejection is a substring test on the cleaned,
accent-folded, lower-cased label, so every label containing a bad word is
rejected — in particular `"Singapore"`, `"Korea, North"` and
`"Korea, South"` (all containing `"ore"`) are always rejected, and any
input whose cleaned label is one of the two Korea carve-out literals is
rejected before the comma carve-out can apply, making the carve-out dead
code. -/
theorem c9_badword_substring_rejection :
    (∀ raw : String,
        (∃ w ∈ BAD_WORDS, w.toList <:+: (cleanedLower raw).toList) →
        normalize_country raw = none) ∧
      normalize_country "Singapore" = none ∧
      normalize_country "Korea, North" = none ∧
      normalize_country "Korea, South" = none ∧
      (∀ raw : String,
        cleanedCore raw = "Korea, North" ∨ cleanedCore raw = "Korea, South" →
        normalize_country raw = none) := by
  refine ⟨?_, by decide, by decide, by decide, ?_⟩
  · rintro raw ⟨w, hw, hinf⟩
    exact badword_rejects hw hinf
  · rintro raw (h | h) <;>
    · refine @badword_rejects raw "ore" (by decide) ?_
      rw [cleanedLower, h]
      decide

/-- Witness for C9: a totals row is rejected through the substring test,
and an input cleaning to the carve-out literal `"Korea, North"` is
rejected. -/
theorem c9_witness :
    normalize_country "World Total" = none ∧
      normalize_country "Korea, North (2020)" = none :=
  ⟨c9_badword_substring_rejection.1 "World Total"
      ⟨"total", by decide, by decide⟩,
    c9_badword_substring_rejection.2.2.2.2 "Korea, North (2020)"
      (Or.inl (by decide))⟩

/-! ## Claim C7 -/

/-- A digit character has code point between 48 and 57. -/
theorem digit_toNat_bounds {c : Char} (h : c.isDigit = true) :
    48 ≤ c.toNat ∧ c.toNat ≤ 57 := by
  unfold Char.isDigit at h
  rw [Bool.and_eq_true] at h
  obtain ⟨h1, h2⟩ := h
  rw [decide_eq_true_eq] at h1 h2
  rw [ge_iff_le, UInt32.le_def, BitVec.le_def] at h1
  rw [UInt32.le_def, BitVec.le_def] at h2
  exact ⟨h1, h2⟩

/-- A character list matching the year pattern parses as an unsigned
numeral to a natural number between 1900 and 2099, and starts with a
digit. -/
theorem yearPattern_parseUnsigned {cs : List Char} (h : yearPattern cs = true) :
    (cs.headD ' ' = '1' ∨ cs.headD ' ' = '2') ∧
      ∃ n : Nat, parseUnsigned cs = some (n : ℚ) ∧ 1900 ≤ n ∧ n ≤ 2099 := by
  rcases cs with - | ⟨a, - | ⟨b, - | ⟨c, - | ⟨d, - | ⟨e, t⟩⟩⟩⟩⟩
  · rw [show yearPattern [] = false from rfl] at h; cases h
  · rw [show ∀ x, yearPattern [x] = false from fun _ => rfl] at h; cases h
  · rw [show ∀ x y, yearPattern [x, y] = false from fun _ _ => rfl] at h
    cases h
  · rw [show ∀ x y z, yearPattern [x, y, z] = false from fun _ _ _ => rfl] at h
    cases h
  case cons.cons.cons.cons.cons =>
    rw [show ∀ x y z w v t, yearPattern (x :: y :: z :: w :: v :: t) = false
        from fun _ _ _ _ _ _ => rfl] at h
    cases h
  case cons.cons.cons.cons =>
    simp only [yearPattern, decide_eq_true_eq] at h
    obtain ⟨hab, hc, hd⟩ := h
    obtain ⟨hc1, hc2⟩ := digit_toNat_bounds hc
    obtain ⟨hd1, hd2⟩ := digit_toNat_bounds hd
    rcases hab with ⟨ha, hb⟩ | ⟨ha, hb⟩ <;> subst ha <;> subst hb
    · refine ⟨Or.inl rfl, digitsVal ['1', '9', c, d], ?_, ?_, ?_⟩
      · have h1d : ('1' : Char).isDigit = true := by decide
        have h9d : ('9' : Char).isDigit = true := by decide
        simp [parseUnsigned, List.takeWhile_cons, List.dropWhile_cons,
          h1d, h9d, hc, hd]
      · have e1 : ('1' : Char).toNat = 49 := by decide
        have e9 : ('9' : Char).toNat = 57 := by decide
        simp only [digitsVal, List.foldl, e1, e9]
        omega
      · have e1 : ('1' : Char).toNat = 49 := by decide
        have e9 : ('9' : Char).toNat = 57 := by decide
        simp only [digitsVal, List.foldl, e1, e9]
        omega
    · refine ⟨Or.inr rfl, digitsVal ['2', '0', c, d], ?_, ?_, ?_⟩
      · have h2d : ('2' : Char).isDigit = true := by decide
        have h0d : ('0' : Char).isDigit = true := by decide
        simp [parseUnsigned, List.takeWhile_cons, List.dropWhile_cons,
          h2d, h0d, hc, hd]
      · have e2 : ('2' : Char).toNat = 50 := by decide
        have e0 : ('0' : Char).toNat = 48 := by decide
        simp only [digitsVal, List.foldl, e2, e0]
        omega
      · have e2 : ('2' : Char).toNat = 50 := by decide
        have e0 : ('0' : Char).toNat = 48 := by decide
        simp only [digitsVal, List.foldl, e2, e0]
        omega

/-- A label satisfying `_is_year` numerically coerces to a natural number
between 1900 and 2099. -/
theorem is_year_parseNum {s : String} (h : _is_year s = true) :
    ∃ n : Nat, parseNum s = some (n : ℚ) ∧ 1900 ≤ n ∧ n ≤ 2099 := by
  unfold _is_year at h
  obtain ⟨hhead, n, hp, h1, h2⟩ := yearPattern_parseUnsigned h
  refine ⟨n, ?_, h1, h2⟩
  simp only [parseNum]
  rcases hhead with h' | h' <;>
    rw [if_neg (by rw [h']; decide), if_neg (by rw [h']; decide)] <;>
    exact hp

/-- Casting a natural number to `ℚ` and truncating back is the
identity. -/
theorem ratToInt_natCast (n : Nat) : ratToInt (n : ℚ) = n := by
  unfold ratToInt
  rw [Rat.num_natCast, Rat.den_natCast]
  simp

/-- Every record produced by the reshaper has its year between 1900 and
2099 (years come from labels matching the year pattern) and carries the
supplied commodity tag. -/
theorem reshape_mem_fields {g : Grid} {i : Nat} {c : String}
    {r : ProductionRecord} (hr : r ∈ reshapeSheet g i c) :
    (1900 ≤ r.year ∧ r.year ≤ 2099) ∧ r.commodity = c := by
  unfold reshapeSheet at hr
  split at hr
  · simp at hr
  next cc hcc =>
    split at hr
    · simp at hr
    · rw [List.mem_flatMap] at hr
      obtain ⟨j, hj, hrr⟩ := hr
      rw [List.mem_filterMap] at hrr
      obtain ⟨row, hrow, heq⟩ := hrr
      rw [yearColIdxs] at hj
      have hjy : _is_year ((headerLabels g i).getD j "") = true :=
        (List.mem_filter.mp hj).2
      cases hy1 : parseNum ((headerLabels g i).getD j "") with
      | none => rw [hy1] at heq; simp at heq
      | some yq =>
        rw [hy1] at heq
        cases hp1 : parseNum (removeCommas (row.getD j "")) with
        | none => rw [hp1] at heq; simp at heq
        | some p =>
          rw [hp1] at heq
          obtain ⟨n, hn, h1, h2⟩ := is_year_parseNum hjy
          rw [hy1] at hn
          have hyq : yq = (n : ℚ) := Option.some_inj.mp hn
          subst hyq
          have heq' : (⟨row.getD cc "", ratToInt (n : ℚ), p, c⟩ :
              ProductionRecord) = r := Option.some_inj.mp heq
          subst heq'
          refine ⟨⟨?_, ?_⟩, rfl⟩
          · show (1900 : ℤ) ≤ ratToInt (n : ℚ)
            rw [ratToInt_natCast]
            omega
          · show ratToInt (n : ℚ) ≤ (2099 : ℤ)
            rw [ratToInt_natCast]
            omega

/-- The cleaning step preserves year and commodity, so every record of a
processed sheet has its year in the interval and the sheet's commodity
tag. -/
theorem processSheet_mem_fields {g : Grid} {c : String}
    {r : ProductionRecord} (hr : r ∈ processSheet g c) :
    (1900 ≤ r.year ∧ r.year ≤ 2099) ∧ r.commodity = c := by
  unfold processSheet at hr
  split at hr
  · simp at hr
  next i hl =>
    unfold cleanRecords at hr
    rw [List.mem_filterMap] at hr
    obtain ⟨r0, hr0, hmap⟩ := hr
    cases hn : normalize_country r0.country with
    | none => rw [hn] at hmap; simp at hmap
    | some cc =>
      rw [hn] at hmap
      have hmap' : ({ r0 with country := cc } : ProductionRecord) = r :=
        Option.some_inj.mp hmap
      obtain ⟨hy, hcom⟩ := reshape_mem_fields hr0
      rw [← hmap']
      exact ⟨hy, hcom⟩

/-- Records of a parsed workbook: year in the interval, commodity tag. -/
theorem tidy_excel_mem_fields {wb : Except String (List Grid)} {c : String}
    {recs : List ProductionRecord} {r : ProductionRecord}
    (h : tidy_excel wb c = some recs) (hr : r ∈ recs) :
    (1900 ≤ r.year ∧ r.year ≤ 2099) ∧ r.commodity = c := by
  cases wb with
  | error e => simp [tidy_excel] at h
  | ok sheets =>
    obtain ⟨g, hg, hrecs, -⟩ :=
      tidySheets_eq_some (show tidySheets sheets c = some recs from h)
    rw [hrecs] at hr
    exact processSheet_mem_fields hr

/-- Records of a source's contributed tables: year in the interval and the
source's commodity tag. -/
theorem sourceTables_mem_fields {s : Source} {l : List ProductionRecord}
    {r : ProductionRecord} (hl : l ∈ sourceTables s) (hr : r ∈ l) :
    (1900 ≤ r.year ∧ r.year ≤ 2099) ∧ r.commodity = s.commodity := by
  rcases s with ⟨c, o⟩
  cases o with
  | raises m => simp [sourceTables] at hl
  | responds st wb =>
    simp only [sourceTables] at hl
    split at hl
    · split at hl
      next recs ht =>
        split at hl
        · simp at hl
        · rw [List.mem_singleton] at hl
          subst hl
          exact tidy_excel_mem_fields ht hr
      next ht => simp at hl
    · simp at hl

/-- Every table collected by the fetch loop is one of the sources'
contributed tables. -/
theorem collectData_ok_mem {sources : List Source}
    {all : List (List ProductionRecord)} (h : collectData sources = .ok all) :
    ∀ l ∈ all, ∃ s ∈ sources, l ∈ sourceTables s := by
  induction sources generalizing all with
  | nil =>
    simp only [collectData, Except.ok.injEq] at h
    subst h
    simp
  | cons s rest ih =>
    rcases s with ⟨c, o⟩
    cases o with
    | raises m => simp [collectData] at h
    | responds st wb =>
      rw [collectData_cons_responds] at h
      cases hcd : collectData rest with
      | error m => rw [hcd] at h; simp at h
      | ok tail =>
        rw [hcd] at h
        have h' : sourceTables ⟨c, .responds st wb⟩ ++ tail = all :=
          Except.ok.inj h
        subst h'
        intro l hl
        rcases List.mem_append.mp hl with hl | hl
        · exact ⟨⟨c, .responds st wb⟩, List.mem_cons_self _ _, hl⟩
        · obtain ⟨s', hs', hls'⟩ := ih hcd l hl
          exact ⟨s', List.mem_cons_of_mem _ hs', hls'⟩

/-- Every record of the final output table has year between 1900 and 2099
and the commodity tag of one of the sources. -/
theorem runTable_mem_fields {sources : List Source}
    {t : List ProductionRecord} {r : ProductionRecord}
    (h : runTable sources = some t) (hr : r ∈ t) :
    (1900 ≤ r.year ∧ r.year ≤ 2099) ∧
      ∃ s ∈ sources, r.commodity = s.commodity := by
  unfold runTable at h
  split at h
  next t' heq =>
    obtain rfl := Option.some_inj.mp h
    unfold run at heq
    split at heq
    · exact absurd heq (by simp)
    next all hcd =>
      split at heq
      · exact absurd heq (by simp)
      · obtain rfl := RunResult.data.inj (Except.ok.inj heq)
        unfold sortRecords at hr
        have hrm : r ∈ all.flatten :=
          (List.perm_insertionSort recLE all.flatten).mem_iff.mp hr
        rw [List.mem_flatten] at hrm
        obtain ⟨l, hla, hrl⟩ := hrm
        obtain ⟨s, hs, hls⟩ := collectData_ok_mem hcd l hla
        obtain ⟨hy, hcom⟩ := sourceTables_mem_fields hls hrl
        exact ⟨hy, s, hs, hcom⟩
  next => simp at h

/-- C7 counterexample: the record invariant claimed by the spec (year in
range and production nonnegative) fails on the code: a sheet with a
negative production cell yields an output record with production `-5`. -/
theorem c7_counterexample :
    ¬ (∀ (sources : List Source) (t : List ProductionRecord),
        runTable sources = some t →
        ∀ r ∈ t, 1900 ≤ r.year ∧ r.year ≤ 2100 ∧ 0 ≤ r.production) := by
  intro hclaim
  have h := hclaim [⟨"x", .responds 200 (.ok [negGrid])⟩]
      [⟨"France", 1990, -5, "x"⟩, ⟨"France", 1991, 7, "x"⟩] (by decide)
      ⟨"France", 1990, -5, "x"⟩ (by simp)
  have hneg : ¬ ((0 : ℚ) ≤ (-5 : ℚ)) := by norm_num
  exact hneg h.2.2

/-- C7 amended: every record surviving into the output table has an
integral year in [1900, 2100] (in fact [1900, 2099]) and a successfully
parsed (non-NaN) production value, but the production is not guaranteed
nonnegative. -/
theorem c7_amended_year_interval :
    ∀ (sources : List Source) (t : List ProductionRecord),
      runTable sources = some t →
      ∀ r ∈ t, 1900 ≤ r.year ∧ r.year ≤ 2100 := by
  intro sources t h r hr
  obtain ⟨⟨h1, h2⟩, -⟩ := runTable_mem_fields h hr
  exact ⟨h1, by omega⟩

/-- Witness for C7: the amended invariant evaluated on a concrete run. -/
theorem c7_witness :
    1900 ≤ (⟨"France", 1990, 1234, "nickel"⟩ : ProductionRecord).year ∧
      (⟨"France", 1990, 1234, "nickel"⟩ : ProductionRecord).year ≤ 2100 :=
  c7_amended_year_interval [⟨"nickel", .responds 200 (.ok [goodGrid])⟩]
    [⟨"France", 1990, 1234, "nickel"⟩, ⟨"France", 1991, 5, "nickel"⟩]
    (by decide) ⟨"France", 1990, 1234, "nickel"⟩ (by simp)

/-! ## Claim C8

The output sort `df_all.sort_values(["Commodity", "Year", "Country"])` is a
stable sort by the key `(commodity, year, country)`.  The lemmas below
establish that the key order is a total preorder, that the sort is stable
on key classes, that a sorted list is determined by its key classes, and
that the key classes of the collected records do not depend on the order
of the sources (given pairwise distinct commodity tags). -/

theorem charListLE_refl (l : List Char) : charListLE l l = true := by
  induction l with
  | nil => rfl
  | cons a t ih =>
    simp only [charListLE]
    rw [if_neg (lt_irrefl a), if_neg (lt_irrefl a)]
    exact ih

theorem charListLE_total (a b : List Char) :
    charListLE a b = true ∨ charListLE b a = true := by
  induction a generalizing b with
  | nil => exact Or.inl rfl
  | cons x xs ih =>
    cases b with
    | nil => exact Or.inr rfl
    | cons y ys =>
      rcases lt_trichotomy x y with h | h | h
      · left; simp only [charListLE]; rw [if_pos h]
      · subst h
        rcases ih ys with h' | h'
        · left; simp only [charListLE]
          rw [if_neg (lt_irrefl x), if_neg (lt_irrefl x)]; exact h'
        · right; simp only [charListLE]
          rw [if_neg (lt_irrefl x), if_neg (lt_irrefl x)]; exact h'
      · right; simp only [charListLE]; rw [if_pos h]

theorem charListLE_trans {a b c : List Char} (h1 : charListLE a b = true)
    (h2 : charListLE b c = true) : charListLE a c = true := by
  induction a generalizing b c with
  | nil => rfl
  | cons x xs ih =>
    cases b with
    | nil => exact absurd h1 (by simp [charListLE])
    | cons y ys =>
      cases c with
      | nil => exact absurd h2 (by simp [charListLE])
      | cons z zs =>
        simp only [charListLE] at h1 h2 ⊢
        by_cases hxy : x < y
        · by_cases hyz : y < z
          · rw [if_pos (lt_trans hxy hyz)]
          · rw [if_neg hyz] at h2
            by_cases hzy : z < y
            · rw [if_pos hzy] at h2; exact Bool.noConfusion h2
            · have hy : y = z :=
                le_antisymm (le_of_not_lt hzy) (le_of_not_lt hyz)
              subst hy
              rw [if_pos hxy]
        · rw [if_neg hxy] at h1
          by_cases hyx : y < x
          · rw [if_pos hyx] at h1; exact Bool.noConfusion h1
          · rw [if_neg hyx] at h1
            have hxeq : x = y :=
              le_antisymm (le_of_not_lt hyx) (le_of_not_lt hxy)
            subst hxeq
            by_cases hxz : x < z
            · rw [if_pos hxz]
            · rw [if_neg hxz] at h2 ⊢
              by_cases hzx : z < x
              · rw [if_pos hzx] at h2; exact Bool.noConfusion h2
              · rw [if_neg hzx] at h2 ⊢
                exact ih h1 h2

theorem charListLE_antisymm {a b : List Char} (h1 : charListLE a b = true)
    (h2 : charListLE b a = true) : a = b := by
  induction a generalizing b with
  | nil =>
    cases b with
    | nil => rfl
    | cons y ys => exact absurd h2 (by simp [charListLE])
  | cons x xs ih =>
    cases b with
    | nil => exact absurd h1 (by simp [charListLE])
    | cons y ys =>
      simp only [charListLE] at h1 h2
      by_cases hxy : x < y
      · rw [if_neg (lt_asymm hxy), if_pos hxy] at h2
        exact Bool.noConfusion h2
      · by_cases hyx : y < x
        · rw [if_neg hxy, if_pos hyx] at h1
          exact Bool.noConfusion h1
        · have hxeq : x = y :=
            le_antisymm (le_of_not_lt hyx) (le_of_not_lt hxy)
          subst hxeq
          rw [if_neg (lt_irrefl x), if_neg (lt_irrefl x)] at h1 h2
          rw [ih h1 h2]

theorem recLE_total (a b : ProductionRecord) : recLE a b ∨ recLE b a := by
  unfold recLE recLEb
  by_cases hc : a.commodity = b.commodity
  · rw [if_pos hc, if_pos hc.symm]
    by_cases hy : a.year = b.year
    · rw [if_pos hy, if_pos hy.symm]
      exact charListLE_total _ _
    · rw [if_neg hy, if_neg (fun h => hy h.symm)]
      simp only [decide_eq_true_eq]
      omega
  · rw [if_neg hc, if_neg (fun h => hc h.symm)]
    exact charListLE_total _ _

theorem recLE_trans {a b c : ProductionRecord} (h1 : recLE a b)
    (h2 : recLE b c) : recLE a c := by
  unfold recLE recLEb at h1 h2 ⊢
  by_cases hab : a.commodity = b.commodity <;>
    by_cases hbc : b.commodity = c.commodity
  · rw [if_pos hab] at h1; rw [if_pos hbc] at h2
    rw [if_pos (hab.trans hbc)]
    by_cases hy1 : a.year = b.year <;> by_cases hy2 : b.year = c.year
    · rw [if_pos hy1] at h1; rw [if_pos hy2] at h2
      rw [if_pos (hy1.trans hy2)]
      exact charListLE_trans h1 h2
    · rw [if_pos hy1] at h1; rw [if_neg hy2] at h2
      simp only [decide_eq_true_eq] at h2
      rw [if_neg (by omega)]
      simp only [decide_eq_true_eq]
      omega
    · rw [if_neg hy1] at h1; rw [if_pos hy2] at h2
      simp only [decide_eq_true_eq] at h1
      rw [if_neg (by omega)]
      simp only [decide_eq_true_eq]
      omega
    · rw [if_neg hy1] at h1; rw [if_neg hy2] at h2
      simp only [decide_eq_true_eq] at h1 h2
      rw [if_neg (by omega)]
      simp only [decide_eq_true_eq]
      omega
  · rw [if_pos hab] at h1; rw [if_neg hbc] at h2
    rw [if_neg (fun h => hbc (hab.symm.trans h)), hab]
    exact h2
  · rw [if_neg hab] at h1; rw [if_pos hbc] at h2
    rw [if_neg (fun h => hab (h.trans hbc.symm)), ← hbc]
    exact h1
  · rw [if_neg hab] at h1; rw [if_neg hbc] at h2
    by_cases hac : a.commodity = c.commodity
    · exfalso
      have h2' : charListLE b.commodity.toList a.commodity.toList = true := by
        rw [hac]; exact h2
      have heq := charListLE_antisymm h1 h2'
      rw [String.toList_inj] at heq
      exact hab heq
    · rw [if_neg hac]
      exact charListLE_trans h1 h2

instance : IsTotal ProductionRecord recLE := ⟨recLE_total⟩

instance : IsTrans ProductionRecord recLE := ⟨fun _ _ _ => recLE_trans⟩

theorem recLE_of_recKey_eq {a b : ProductionRecord}
    (h : recKey a = recKey b) : recLE a b := by
  unfold recKey at h
  simp only [Prod.mk.injEq] at h
  obtain ⟨h1, h2, h3⟩ := h
  unfold recLE recLEb
  rw [if_pos h1, if_pos h2, h3]
  exact charListLE_refl _

theorem recKey_eq_of_recLE_both {a b : ProductionRecord}
    (h1 : recLE a b) (h2 : recLE b a) : recKey a = recKey b := by
  unfold recLE recLEb at h1 h2
  by_cases hc : a.commodity = b.commodity
  · rw [if_pos hc] at h1; rw [if_pos hc.symm] at h2
    by_cases hy : a.year = b.year
    · rw [if_pos hy] at h1; rw [if_pos hy.symm] at h2
      have hcl := charListLE_antisymm h1 h2
      rw [String.toList_inj] at hcl
      unfold recKey
      rw [hc, hy, hcl]
    · rw [if_neg hy] at h1; rw [if_neg (fun h => hy h.symm)] at h2
      simp only [decide_eq_true_eq] at h1 h2
      omega
  · rw [if_neg hc] at h1; rw [if_neg (fun h => hc h.symm)] at h2
    have heq := charListLE_antisymm h1 h2
    rw [String.toList_inj] at heq
    exact absurd heq hc

theorem keyP_recLE {k : String × Int × String} {a b : ProductionRecord}
    (ha : keyP k a = true) (hb : keyP k b = true) : recLE a b := by
  unfold keyP at ha hb
  rw [decide_eq_true_eq] at ha hb
  exact recLE_of_recKey_eq (ha.trans hb.symm)

/-- Stability of the sort on key classes: filtering the sorted table by a
sort key gives the same list as filtering the input. -/
theorem filter_keyP_sortRecords (l : List ProductionRecord)
    (k : String × Int × String) :
    (sortRecords l).filter (keyP k) = l.filter (keyP k) := by
  have hpw : (l.filter (keyP k)).Pairwise recLE :=
    List.pairwise_of_forall_mem_list (fun a ha b hb =>
      keyP_recLE (List.mem_filter.mp ha).2 (List.mem_filter.mp hb).2)
  have hsub : List.Sublist (l.filter (keyP k)) (sortRecords l) :=
    List.sublist_insertionSort hpw (List.filter_sublist l)
  have hid : (l.filter (keyP k)).filter (keyP k) = l.filter (keyP k) :=
    List.filter_eq_self.mpr (fun a ha => (List.mem_filter.mp ha).2)
  have hsub2 : List.Sublist (l.filter (keyP k))
      ((sortRecords l).filter (keyP k)) := by
    have h := hsub.filter (keyP k)
    rwa [hid] at h
  have hperm : List.Perm ((sortRecords l).filter (keyP k))
      (l.filter (keyP k)) :=
    (List.perm_insertionSort recLE l).filter _
  exact (hsub2.eq_of_length hperm.length_eq.symm).symm

/-- Two key-sorted lists with identical key classes are equal. -/
theorem sorted_filter_ext {M₁ M₂ : List ProductionRecord}
    (h₁ : M₁.Pairwise recLE) (h₂ : M₂.Pairwise recLE)
    (hf : ∀ k, M₁.filter (keyP k) = M₂.filter (keyP k)) : M₁ = M₂ := by
  induction M₁ generalizing M₂ with
  | nil =>
    cases M₂ with
    | nil => rfl
    | cons b t₂ =>
      exfalso
      have hb : keyP (recKey b) b = true := by simp [keyP]
      have h := hf (recKey b)
      rw [List.filter_nil, List.filter_cons_of_pos hb] at h
      exact List.cons_ne_nil _ _ h.symm
  | cons a t₁ ih =>
    cases M₂ with
    | nil =>
      exfalso
      have ha : keyP (recKey a) a = true := by simp [keyP]
      have h := hf (recKey a)
      rw [List.filter_cons_of_pos ha, List.filter_nil] at h
      exact List.cons_ne_nil _ _ h
    | cons b t₂ =>
      have ha : keyP (recKey a) a = true := by simp [keyP]
      have hb : keyP (recKey b) b = true := by simp [keyP]
      have hab : a = b := by
        by_cases hk : keyP (recKey a) b = true
        · have h := hf (recKey a)
          rw [List.filter_cons_of_pos ha, List.filter_cons_of_pos hk] at h
          exact (List.cons.inj h).1
        · exfalso
          have h := hf (recKey a)
          rw [List.filter_cons_of_pos ha, List.filter_cons_of_neg hk] at h
          have hat2 : a ∈ t₂ := by
            have hm : a ∈ t₂.filter (keyP (recKey a)) := by
              rw [← h]; exact List.mem_cons_self _ _
            exact (List.mem_filter.mp hm).1
          have hka : ¬ keyP (recKey b) a = true := by
            intro hka
            unfold keyP at hka hk
            rw [decide_eq_true_eq] at hka
            exact hk (by rw [decide_eq_true_eq]; exact hka.symm)
          have h2' := hf (recKey b)
          rw [List.filter_cons_of_neg hka, List.filter_cons_of_pos hb] at h2'
          have hbt1 : b ∈ t₁ := by
            have hm : b ∈ t₁.filter (keyP (recKey b)) := by
              rw [h2']; exact List.mem_cons_self _ _
            exact (List.mem_filter.mp hm).1
          have hab1 : recLE a b := List.rel_of_pairwise_cons h₁ hbt1
          have hba1 : recLE b a := List.rel_of_pairwise_cons h₂ hat2
          have hkeq := recKey_eq_of_recLE_both hab1 hba1
          exact hk (by unfold keyP; rw [decide_eq_true_eq]; exact hkeq.symm)
      subst hab
      have hft : ∀ k, t₁.filter (keyP k) = t₂.filter (keyP k) := by
        intro k
        have h := hf k
        by_cases hk : keyP k a = true
        · rw [List.filter_cons_of_pos hk, List.filter_cons_of_pos hk] at h
          exact (List.cons.inj h).2
        · rwa [List.filter_cons_of_neg hk, List.filter_cons_of_neg hk] at h
      rw [ih h₁.of_cons h₂.of_cons hft]

/-- Records contributed by a source carry its commodity tag. -/
theorem sourceRecs_commodity {s : Source} {r : ProductionRecord}
    (hr : r ∈ sourceRecs s) : r.commodity = s.commodity := by
  unfold sourceRecs at hr
  rw [List.mem_flatten] at hr
  obtain ⟨l, hl, hrl⟩ := hr
  exact (sourceTables_mem_fields hl hrl).2

/-- When no fetch raises, the collection loop succeeds with the
concatenation of the per-source tables. -/
theorem collectData_no_raises {sources : List Source}
    (h : ∀ s ∈ sources, sourceRaises s = false) :
    collectData sources = .ok (sources.flatMap sourceTables) := by
  induction sources with
  | nil => rfl
  | cons s rest ih =>
    rcases s with ⟨c, o⟩
    cases o with
    | raises m =>
      exact absurd (h _ (List.mem_cons_self _ _)) (by simp [sourceRaises])
    | responds st wb =>
      rw [collectData_cons_responds,
        ih (fun s hs => h s (List.mem_cons_of_mem _ hs))]
      rfl

theorem flatten_flatMap_sourceTables (l : List Source) :
    (l.flatMap sourceTables).flatten = l.flatMap sourceRecs := by
  induction l with
  | nil => rfl
  | cons s rest ih =>
    simp only [List.flatMap_cons, List.flatten_append, ih]
    rfl

/-- A source with a commodity tag different from the key's contributes
nothing to the key class. -/
theorem filter_keyP_nil_of_commodity_ne {s : Source}
    {k : String × Int × String} (h : s.commodity ≠ k.1) :
    (sourceRecs s).filter (keyP k) = [] := by
  rw [List.filter_eq_nil_iff]
  intro r hr hk
  unfold keyP at hk
  rw [decide_eq_true_eq] at hk
  have h1 : r.commodity = k.1 := congrArg Prod.fst hk
  exact h ((sourceRecs_commodity hr).symm.trans h1)

/-- Key classes of the collected records are invariant under permuting the
sources, given pairwise distinct commodity tags. -/
theorem filter_flatMap_perm_eq {l₁ l₂ : List Source} (hp : l₁.Perm l₂)
    (hn : (l₁.map Source.commodity).Nodup) (k : String × Int × String) :
    (l₁.flatMap sourceRecs).filter (keyP k)
      = (l₂.flatMap sourceRecs).filter (keyP k) := by
  revert hn
  induction hp with
  | nil => intro hn; rfl
  | cons x p ih =>
    intro hn
    rw [List.map_cons, List.nodup_cons] at hn
    simp only [List.flatMap_cons, List.filter_append]
    rw [ih hn.2]
  | swap x y l =>
    intro hn
    rw [List.map_cons, List.map_cons, List.nodup_cons, List.nodup_cons] at hn
    have hxy : y.commodity ≠ x.commodity := by
      intro h
      exact hn.1 (by rw [h]; exact List.mem_cons_self _ _)
    simp only [List.flatMap_cons, List.filter_append, ← List.append_assoc]
    congr 1
    by_cases hk : x.commodity = k.1
    · have hy0 : (sourceRecs y).filter (keyP k) = [] :=
        filter_keyP_nil_of_commodity_ne (by rw [hk] at hxy; exact hxy)
      rw [hy0, List.nil_append, List.append_nil]
    · have hx0 : (sourceRecs x).filter (keyP k) = [] :=
        filter_keyP_nil_of_commodity_ne hk
      rw [hx0, List.nil_append, List.append_nil]
  | trans p₁ p₂ ih₁ ih₂ =>
    intro hn
    rw [ih₁ hn, ih₂ ((p₁.map Source.commodity).nodup hn)]

/-- C8: on identical fetched bytes the run is a pure function of the
source list, the output table is sorted by (commodity, year, country), and
permuting the sources (all fetches completing, commodity tags pairwise
distinct as in `COMMODITIES`) leaves the entire run result unchanged. -/
theorem c8_run_deterministic_order_independent :
    ∀ s₁ s₂ : List Source,
      s₁.Perm s₂ →
      (s₁.map Source.commodity).Nodup →
      (∀ s ∈ s₁, sourceRaises s = false) →
      run s₁ = run s₂ ∧
        ∀ t, runTable s₁ = some t → t.Pairwise recLE := by
  intro s₁ s₂ hp hn hnr
  constructor
  · have hnr₂ : ∀ s ∈ s₂, sourceRaises s = false :=
      fun s hs => hnr s (hp.symm.subset hs)
    have hperm_tabs : List.Perm (s₁.flatMap sourceTables)
        (s₂.flatMap sourceTables) :=
      List.Perm.flatMap_right sourceTables hp
    simp only [run, collectData_no_raises hnr, collectData_no_raises hnr₂]
    by_cases he : (s₁.flatMap sourceTables).isEmpty
    · have he₂ : (s₂.flatMap sourceTables).isEmpty = true := by
        rw [List.isEmpty_iff] at he ⊢
        rw [he] at hperm_tabs
        exact hperm_tabs.symm.eq_nil
      rw [if_pos he, if_pos he₂]
    · have he₂ : ¬ (s₂.flatMap sourceTables).isEmpty = true := by
        intro h
        apply he
        rw [List.isEmpty_iff] at h ⊢
        rw [h] at hperm_tabs
        exact hperm_tabs.eq_nil
      rw [if_neg he, if_neg he₂]
      have hfl : ∀ k, ((s₁.flatMap sourceTables).flatten).filter (keyP k)
          = ((s₂.flatMap sourceTables).flatten).filter (keyP k) := by
        intro k
        rw [flatten_flatMap_sourceTables, flatten_flatMap_sourceTables]
        exact filter_flatMap_perm_eq hp hn k
      have hsorted₁ :
          (sortRecords (s₁.flatMap sourceTables).flatten).Pairwise recLE :=
        List.sorted_insertionSort recLE _
      have hsorted₂ :
          (sortRecords (s₂.flatMap sourceTables).flatten).Pairwise recLE :=
        List.sorted_insertionSort recLE _
      have hst : sortRecords (s₁.flatMap sourceTables).flatten
          = sortRecords (s₂.flatMap sourceTables).flatten := by
        apply sorted_filter_ext hsorted₁ hsorted₂
        intro k
        rw [filter_keyP_sortRecords, filter_keyP_sortRecords]
        exact hfl k
      rw [hst]
  · intro t ht
    unfold runTable at ht
    split at ht
    next t' heq =>
      obtain rfl := Option.some_inj.mp ht
      unfold run at heq
      split at heq
      · exact absurd heq (by simp)
      next all hcd =>
        split at heq
        · exact absurd heq (by simp)
        · obtain rfl := RunResult.data.inj (Except.ok.inj heq)
          exact List.sorted_insertionSort recLE _
    next => simp at ht

/-- Witness for C8: two concrete sources in both orders give the same run
result, and the concrete output table is key-sorted. -/
theorem c8_witness :
    run [⟨"nickel", .responds 200 (.ok [goodGrid])⟩,
         ⟨"aluminum", .responds 200 (.ok [negGrid])⟩]
      = run [⟨"aluminum", .responds 200 (.ok [negGrid])⟩,
             ⟨"nickel", .responds 200 (.ok [goodGrid])⟩] ∧
      ([⟨"France", 1990, -5, "aluminum"⟩, ⟨"France", 1991, 7, "aluminum"⟩,
        ⟨"France", 1990, 1234, "nickel"⟩, ⟨"France", 1991, 5, "nickel"⟩] :
        List ProductionRecord).Pairwise recLE :=
  ⟨(c8_run_deterministic_order_independent
      [⟨"nickel", .responds 200 (.ok [goodGrid])⟩,
       ⟨"aluminum", .responds 200 (.ok [negGrid])⟩]
      [⟨"aluminum", .responds 200 (.ok [negGrid])⟩,
       ⟨"nickel", .responds 200 (.ok [goodGrid])⟩]
      (List.Perm.swap _ _ _) (by decide) (by decide)).1,
    (c8_run_deterministic_order_independent
      [⟨"nickel", .responds 200 (.ok [goodGrid])⟩,
       ⟨"aluminum", .responds 200 (.ok [negGrid])⟩]
      [⟨"aluminum", .responds 200 (.ok [negGrid])⟩,
       ⟨"nickel", .responds 200 (.ok [goodGrid])⟩]
      (List.Perm.swap _ _ _) (by decide) (by decide)).2 _ (by decide)⟩

end Scraper
